import Mathlib

/-!
Verification of `gitreverter.py` (class `GitReverter`): a shallow embedding of
the script and of the slice of the version-control engine (pygit2) that it
uses.  File trees are association lists from paths to blob contents; a
repository is a record holding the commit store, the local branches, the
checked-out branch name, the working directory, the index, and the configured
identity.  The pygit2 calls the script makes (`checkout`, `walk`,
`revert_commit`, branch create/delete, `index.add_all`/`write_tree`,
`create_commit`) are modelled as pure state transformers; `revert_commit`
returns a fresh index computed by a per-path three-way merge and does not
modify the repository, exactly as the library documents.
-/

namespace Gitrev

/-- Configured identity (pygit2 `Signature`): a name and an email. -/
structure Sig where
  name : String
  email : String
deriving DecidableEq, Repr

/-- File tree: an association list from paths to blob contents. -/
abbrev Tree := List (String × String)

/-- Lookup of a path in a tree (first entry wins). -/
def Tree.find (t : Tree) (p : String) : Option String :=
  (List.find? (fun e => e.1 = p) t).map (·.2)

/-- Commit record as the script reads it: full identity, message, author and
committer signatures, parent identities, and the snapshot tree. -/
structure Commit where
  id : String
  message : String
  author : Sig
  committer : Sig
  parentIds : List String
  tree : Tree
deriving DecidableEq, Repr

/-- Result of a revert attempt (pygit2 `Index`): staged entries plus the
conflict flag (`index.conflicts` is truthy iff some path conflicted). -/
structure Index where
  entries : Tree
  conflicts : Bool
deriving DecidableEq, Repr

/-- Repository state: object store, local branches (name to tip id), the
checked-out branch name, working directory, index (entries and conflict
flag), configured identity, and a counter used to mint ids for new commits
(standing in for content addressing). -/
structure Repo where
  commits : List Commit
  branches : List (String × String)
  headName : String
  workdir : Tree
  index : Tree
  indexConflicts : Bool
  userName : String
  userEmail : String
  fresh : Nat
deriving DecidableEq, Repr

/-- Lookup of a commit by full identity in the object store. -/
def Repo.lookupCommit (r : Repo) (i : String) : Option Commit :=
  List.find? (fun c => c.id = i) r.commits

/-- Tip identity of a named local branch. -/
def Repo.branchTip (r : Repo) (name : String) : Option String :=
  (List.find? (fun p => p.1 = name) r.branches).map (·.2)

/-- Identity the checked-out branch points at (`repo.head.target`). -/
def Repo.headTarget (r : Repo) : Option String :=
  r.branchTip r.headName

/-- History walk with explicit fuel, following first parents (the script is
specified over linear histories). -/
def Repo.walkFuel (r : Repo) : Nat → String → List Commit
  | 0, _ => []
  | n + 1, i =>
    match r.lookupCommit i with
    | none => []
    | some c =>
      c :: (match c.parentIds.head? with
            | none => []
            | some p => r.walkFuel n p)

/-- Walk from a commit id in reverse-topological order, newest first
(`repo.walk(oid)` with the default sort on a linear history). -/
def Repo.walk (r : Repo) (i : String) : List Commit :=
  r.walkFuel r.commits.length i

/-- Checkout of a named branch (`repo.checkout("refs/heads/<name>")`): fails
on an unresolved index or an unknown branch, otherwise makes the branch
current and resets working directory and index to its tip tree. -/
def Repo.checkout (r : Repo) (name : String) : Option Repo :=
  if r.indexConflicts then none
  else
    match r.branchTip name with
    | none => none
    | some t =>
      match r.lookupCommit t with
      | none => none
      | some c => some { r with headName := name, workdir := c.tree, index := c.tree }

/-- Branch creation (`repo.branches.local.create`): fails if the name is
already taken, otherwise records the new branch at the given commit. -/
def Repo.createBranch (r : Repo) (name : String) (c : Commit) : Option Repo :=
  if r.branches.any (fun p => p.1 = name) then none
  else some { r with branches := r.branches ++ [(name, c.id)] }

/-- Branch deletion (`repo.branches.local.delete`): libgit2 refuses to
delete the branch HEAD points at (deleting the checked-out branch raises),
otherwise the branch is removed. -/
def Repo.deleteBranch (r : Repo) (name : String) : Option Repo :=
  if r.headName = name then none
  else some { r with branches := r.branches.filter (fun p => ¬ p.1 = name) }

/-- Trivial per-path three-way merge: keep agreeing sides, take the changed
side when only one side changed, conflict when both changed differently.
`some v` is the merged blob (`none` inside means the path is absent),
`none` outside signals a conflict on the path. -/
def mergeEntry (base ours theirs : Option String) : Option (Option String) :=
  if ours = theirs then some ours
  else if base = ours then some theirs
  else if base = theirs then some ours
  else none

/-- Paths mentioned by any of the three trees taking part in a merge. -/
def treePaths (a b c : Tree) : List String :=
  ((a ++ b ++ c).map (·.1)).dedup

/-- Three-way merge of whole trees, collecting merged entries and the
conflict flag. -/
def mergeTrees (base ours theirs : Tree) : Index :=
  (treePaths base ours theirs).foldl
    (fun idx p =>
      match mergeEntry (base.find p) (ours.find p) (theirs.find p) with
      | some (some v) => { idx with entries := idx.entries ++ [(p, v)] }
      | some none => idx
      | none => { idx with conflicts := true })
    { entries := [], conflicts := false }

/-- Tree of the first parent of a commit (empty for a root commit). -/
def Repo.parentTree (r : Repo) (c : Commit) : Tree :=
  match c.parentIds.head? with
  | none => []
  | some p =>
    match r.lookupCommit p with
    | none => []
    | some pc => pc.tree

/-- Revert attempt (`repo.revert_commit(c, ours)`): three-way merge with the
reverted commit's tree as merge base, the baseline commit's tree as ours and
the reverted commit's parent tree as theirs.  Returns the resulting index;
the repository itself is untouched. -/
def Repo.revert_commit (r : Repo) (c ours : Commit) : Index :=
  mergeTrees c.tree ours.tree (r.parentTree c)

/-- Identity minted for the n-th commit the run creates.  Real git assigns
content hashes; the model only needs the minted ids to be distinguishable,
so it uses strings of `!` characters, which no hex hash is. -/
def freshId (n : Nat) : String :=
  String.mk (List.replicate (n + 1) '!')

/-- Commit creation (`repo.create_commit(ref, author, committer, message,
tree, parents)`): appends the new commit to the store and repoints the branch
whose full reference name is `ref`. -/
def Repo.create_commit (r : Repo) (refName : String) (author committer : Sig)
    (message : String) (tree : Tree) (parents : List String) : Repo :=
  let i := freshId r.fresh
  let c : Commit := { id := i, message := message, author := author,
                      committer := committer, parentIds := parents, tree := tree }
  { r with commits := r.commits ++ [c],
           branches := r.branches.map
             (fun p => if "refs/heads/" ++ p.1 = refName then (p.1, i) else p),
           fresh := r.fresh + 1 }

/-- Errors the script can raise: target prefix not found on the ref, revert
conflict during the cascade, or a failure inside the git engine itself
(failed checkout, branch-name collision, missing object). -/
inductive GRError where
  | notFound (hash rf : String)
  | conflict (id : String)
  | gitError
deriving DecidableEq, Repr

/-- State of a `GitReverter` object: the repository plus the fields the
constructor and the workspace setup populate. -/
structure GitReverter where
  repo : Repo
  ref : String
  commit_hash : String
  head : Option Commit
  tmp_branch : Option String
  target_commits : List (Commit × Bool)
deriving DecidableEq, Repr

/-- Ordered-dictionary insertion, keyed on commit identity (Python `dict`
with pygit2 commits as keys): an existing key keeps its position and key
object and only its value is replaced; a new key is appended. -/
def odInsert (m : List (Commit × Bool)) (c : Commit) (v : Bool) : List (Commit × Bool) :=
  if m.any (fun p => p.1.id = c.id) then
    m.map (fun p => if p.1.id = c.id then (p.1, v) else p)
  else m ++ [(c, v)]

/-- Python `str.startswith`, computed on the character sequences (the
built-in `String.startsWith` is compiled code that does not reduce inside
the kernel). -/
def strStartsWith (s pre : String) : Bool :=
  List.isPrefixOf pre.data s.data

/-- Constructor `GitReverter.__init__`: checks out the given ref, walks from
its tip, and succeeds as soon as some commit's full identity starts with the
given hash prefix; otherwise reports that the hash was not found on the ref. -/
def GitReverter.init (repo0 : Repo) (rf commit_hash : String) : Except GRError GitReverter :=
  match repo0.checkout rf with
  | none => .error .gitError
  | some r =>
    match r.headTarget with
    | none => .error .gitError
    | some t =>
      match List.find? (fun c => strStartsWith c.id commit_hash) (r.walk t) with
      | some _ =>
        .ok { repo := r, ref := rf, commit_hash := commit_hash,
              head := none, tmp_branch := none, target_commits := [] }
      | none => .error (.notFound commit_hash rf)

/-- `setup_tmp_branch`: checks out the ref, creates branch
`git_reverter_<timestamp>` at its tip (the strftime result is passed in as
`now`), checks the new branch out, and records its tip commit in `head`. -/
def GitReverter.setup_tmp_branch (g : GitReverter) (now : String) : Except GRError GitReverter :=
  let branch := "git_reverter_" ++ now
  match g.repo.checkout g.ref with
  | none => .error .gitError
  | some r =>
    match r.headTarget with
    | none => .error .gitError
    | some t =>
      match (r.walk t).head? with
      | none => .error .gitError
      | some headc =>
        match r.createBranch branch headc with
        | none => .error .gitError
        | some r2 =>
          match r2.checkout branch with
          | none => .error .gitError
          | some r3 =>
            match r3.headTarget with
            | none => .error .gitError
            | some t2 =>
              match (r3.walk t2).head? with
              | none => .error .gitError
              | some headc2 =>
                .ok { g with repo := r3, tmp_branch := some branch, head := some headc2 }

/-- `test_all_single_revert`: after workspace setup, walks every commit from
the workspace tip and records, per commit, whether reverting it against the
fixed head snapshot (`self.head`) yields conflicts, using the index returned
by the revert attempt; then checks the original ref out again and deletes the
temporary branch. -/
def GitReverter.test_all_single_revert (g0 : GitReverter) (now : String) :
    Except GRError (List (Commit × Bool) × GitReverter) :=
  match g0.setup_tmp_branch now with
  | .error e => .error e
  | .ok g =>
    match g.repo.headTarget with
    | none => .error .gitError
    | some t =>
      match g.head with
      | none => .error .gitError
      | some h =>
        let tc := (g.repo.walk t).foldl
          (fun m c => odInsert m c (g.repo.revert_commit c h).conflicts) g.target_commits
        match g.repo.checkout g.ref with
        | none => .error .gitError
        | some r2 =>
          match g.tmp_branch with
          | none => .error .gitError
          | some b =>
            match r2.deleteBranch b with
            | none => .error .gitError
            | some r3 =>
              .ok (tc, { g with repo := r3, target_commits := tc })

/-- Loop body of `revert_all_reverse`, parameterised by the revert-attempt
function so that its (discarded) result is explicit.  Per commit: read the
current tip, call the revert attempt and drop its result, test the
repository's own index for conflicts, stage the working directory
(`index.add_all(); index.write()`), write the staged tree, and commit it on
the current branch with the configured identity and the current tip as the
single parent. -/
def revertStepLoop (f : Repo → Commit → Commit → Index) :
    List Commit → Repo → Except GRError Repo
  | [], r => .ok r
  | c :: cs, r =>
    let message := "Revert " ++ c.message
    match r.headTarget with
    | none => .error .gitError
    | some t =>
      match (r.walk t).head? with
      | none => .error .gitError
      | some new_head =>
        let _discarded := f r c new_head
        if r.indexConflicts then .error (.conflict c.id)
        else
          let r1 := { r with index := r.workdir }
          let tree := r1.index
          let curr_ref := "refs/heads/" ++ r1.headName
          let parents := [t]
          let signature := Sig.mk r1.userName r1.userEmail
          revertStepLoop f cs
            (r1.create_commit curr_ref signature signature message tree parents)

/-- `revert_all_reverse` with the revert-attempt function as a parameter:
workspace setup, then the cascade loop over the commits walked from the
workspace tip at loop entry. -/
def GitReverter.revertAllWith (f : Repo → Commit → Commit → Index)
    (g0 : GitReverter) (now : String) : Except GRError GitReverter :=
  match g0.setup_tmp_branch now with
  | .error e => .error e
  | .ok g =>
    match g.repo.headTarget with
    | none => .error .gitError
    | some t =>
      match revertStepLoop f (g.repo.walk t) g.repo with
      | .error e => .error e
      | .ok r => .ok { g with repo := r }

/-- `revert_all_reverse` as the script runs it: the attempt function is
`repo.revert_commit`. -/
def GitReverter.revert_all_reverse (g0 : GitReverter) (now : String) :
    Except GRError GitReverter :=
  g0.revertAllWith Repo.revert_commit now

/-- Iteration of `cleanup_branches` over a snapshot of the local branch
names, deleting each one that starts with the reserved prefix.  A delete
that fails (the branch is checked out) raises: the iteration stops there and
the repository keeps the deletions already performed, which the second
component reports as the escaping error. -/
def cleanupLoop : List String → Repo → Repo × Option GRError
  | [], r => (r, none)
  | b :: bs, r =>
    if strStartsWith b "git_reverter_" then
      match r.deleteBranch b with
      | none => (r, some .gitError)
      | some r2 => cleanupLoop bs r2
    else cleanupLoop bs r

/-- `cleanup_branches`: deletes every local branch whose name starts with
`git_reverter_`; deleting the checked-out branch raises mid-loop. -/
def GitReverter.cleanup_branches (g : GitReverter) : GitReverter × Option GRError :=
  match cleanupLoop (g.repo.branches.map (·.1)) g.repo with
  | (r, e) => ({ g with repo := r }, e)

/-- Detector for the cascading-revert conflict abort. -/
def isConflictErr {α : Type} : Except GRError α → Bool
  | .error (.conflict _) => true
  | _ => false

/-- Identity configured in the example repositories. -/
def sigU : Sig := ⟨"u", "e"⟩

/-- One-commit example history: a root commit holding one file. -/
def exC0 : Commit :=
  { id := "a0", message := "m0", author := sigU, committer := sigU,
    parentIds := [], tree := [("f", "x")] }

/-- Repository holding the one-commit history on branch `main`. -/
def exRepo1 : Repo :=
  { commits := [exC0], branches := [("main", "a0")], headName := "main",
    workdir := [("f", "x")], index := [("f", "x")], indexConflicts := false,
    userName := "u", userEmail := "e", fresh := 0 }

/-- Reverter state over the one-commit repository. -/
def exG1 : GitReverter :=
  { repo := exRepo1, ref := "main", commit_hash := "a", head := none,
    tmp_branch := none, target_commits := [] }

/-- Root of the two-commit example history: creates file `f` with content 1;
its successor `exD2` overwrites the content, so reverting `exD1` after
`exD2`'s changes are present conflicts. -/
def exD1 : Commit :=
  { id := "a1", message := "m1", author := sigU, committer := sigU,
    parentIds := [], tree := [("f", "1")] }

/-- Tip of the two-commit example history. -/
def exD2 : Commit :=
  { id := "b2", message := "m2", author := sigU, committer := sigU,
    parentIds := ["a1"], tree := [("f", "2")] }

/-- Repository holding the two-commit history on branch `main`. -/
def exRepo2 : Repo :=
  { commits := [exD1, exD2], branches := [("main", "b2")], headName := "main",
    workdir := [("f", "2")], index := [("f", "2")], indexConflicts := false,
    userName := "u", userEmail := "e", fresh := 0 }

/-- Reverter state over the two-commit repository. -/
def exG2 : GitReverter :=
  { repo := exRepo2, ref := "main", commit_hash := "a", head := none,
    tmp_branch := none, target_commits := [] }

/-- Workspace repository produced by `setup_tmp_branch` on `exG2` at
timestamp `T`. -/
def wsRepo2ex : Repo :=
  { commits := [exD1, exD2],
    branches := [("main", "b2"), ("git_reverter_T", "b2")],
    headName := "git_reverter_T", workdir := [("f", "2")], index := [("f", "2")],
    indexConflicts := false, userName := "u", userEmail := "e", fresh := 0 }

/-- The revert commit the cascade creates for `exD2` on `exG2`. -/
def exMid1 : Commit :=
  { id := "!", message := "Revert m2", author := sigU, committer := sigU,
    parentIds := ["b2"], tree := [("f", "2")] }

/-- Repository left with a stale workspace branch and checked out on it:
the state `GitReverter.__init__` produces when the operator runs
`--cleanup --ref git_reverter_X`. -/
def exRepoC : Repo :=
  { commits := [exC0], branches := [("main", "a0"), ("git_reverter_X", "a0")],
    headName := "git_reverter_X", workdir := [("f", "x")], index := [("f", "x")],
    indexConflicts := false, userName := "u", userEmail := "e", fresh := 0 }

/-- Cascade state on `exG2` after the first loop step: `exMid1` has been
committed on the workspace branch and the loop continues with `exD1`. -/
def exRepo2Mid : Repo :=
  { commits := [exD1, exD2, exMid1],
    branches := [("main", "b2"), ("git_reverter_T", "!")],
    headName := "git_reverter_T", workdir := [("f", "2")], index := [("f", "2")],
    indexConflicts := false, userName := "u", userEmail := "e", fresh := 1 }

end Gitrev

namespace Gitrev

theorem lookupCommit_id {r : Repo} {t : String} {c : Commit}
    (h : r.lookupCommit t = some c) : c.id = t := by
  have hp := List.find?_some h
  simpa using hp

theorem lookupCommit_of_record {cs : List Commit} {t : String}
    {bs : List (String × String)} {hn : String} {w ix : Tree} {b : Bool}
    {un ue : String} {n : Nat} :
    Repo.lookupCommit ⟨cs, bs, hn, w, ix, b, un, ue, n⟩ t =
      List.find? (fun c => c.id = t) cs := rfl

theorem walk_head {r : Repo} {t : String} {c : Commit}
    (h : r.lookupCommit t = some c) : (r.walk t).head? = some c := by
  have hne : r.commits ≠ [] := by
    intro he
    rw [Repo.lookupCommit, he] at h
    simp at h
  obtain ⟨n, hn⟩ : ∃ n, r.commits.length = n + 1 := by
    cases hc : r.commits with
    | nil => exact absurd hc hne
    | cons a l => exact ⟨l.length, by simp [hc]⟩
  rw [Repo.walk, hn, Repo.walkFuel, h]
  rfl

theorem checkout_spec {r : Repo} {name : String} {r' : Repo}
    (h : r.checkout name = some r') :
    ∃ t c, r.indexConflicts = false ∧ r.branchTip name = some t ∧
      r.lookupCommit t = some c ∧
      r' = { r with headName := name, workdir := c.tree, index := c.tree } := by
  unfold Repo.checkout at h
  split at h
  · exact absurd h (by simp)
  next hconf =>
    split at h
    · exact absurd h (by simp)
    next t ht =>
      split at h
      · exact absurd h (by simp)
      next c hc =>
        exact ⟨t, c, by simpa using hconf, ht, hc, by injection h with h; exact h.symm⟩

theorem checkout_eq {r : Repo} {name : String} {t : String} {c : Commit}
    (hconf : r.indexConflicts = false) (ht : r.branchTip name = some t)
    (hc : r.lookupCommit t = some c) :
    r.checkout name = some { r with headName := name, workdir := c.tree, index := c.tree } := by
  unfold Repo.checkout
  rw [hconf]
  simp [ht, hc]

theorem branchTip_append_not_taken {bs : List (String × String)} {name : String}
    {e : String × String}
    (hb : (bs.any (fun p => p.1 = name)) = false) (he : e.1 = name) :
    (List.find? (fun p => p.1 = name) (bs ++ [e])).map (·.2) = some e.2 := by
  have hnone : List.find? (fun p => p.1 = name) bs = none := by
    rw [List.find?_eq_none]
    intro x hx hpx
    have hcontra : bs.any (fun p => p.1 = name) = true := by
      rw [List.any_eq_true]
      exact ⟨x, hx, hpx⟩
    rw [hb] at hcontra
    exact absurd hcontra (by simp)
  rw [List.find?_append, hnone]
  simp [he]


/-- Closed form of a successful `setup_tmp_branch`: the original ref resolves
to tip `t` held by commit `c`, the temporary name is free, and the result is
the original state with branch `git_reverter_<now>` created at `c`, checked
out, and recorded together with the head snapshot `c`. -/
theorem setup_spec {g : GitReverter} {now : String} {g1 : GitReverter}
    (hs : g.setup_tmp_branch now = .ok g1) :
    ∃ t c, g.repo.indexConflicts = false ∧
      g.repo.branchTip g.ref = some t ∧
      g.repo.lookupCommit t = some c ∧
      (g.repo.branches.any (fun p => p.1 = "git_reverter_" ++ now)) = false ∧
      g1 = { g with
        repo := { g.repo with
          headName := "git_reverter_" ++ now,
          workdir := c.tree, index := c.tree,
          branches := g.repo.branches ++ [("git_reverter_" ++ now, c.id)] },
        tmp_branch := some ("git_reverter_" ++ now),
        head := some c } := by
  cases hco : g.repo.checkout g.ref with
  | none =>
    rw [GitReverter.setup_tmp_branch] at hs
    rw [hco] at hs
    exact absurd hs (by simp)
  | some r =>
    obtain ⟨t, c, hconf, htip, hlook, hr⟩ := checkout_spec hco
    subst hr
    have hA1 : Repo.headTarget
        { g.repo with headName := g.ref, workdir := c.tree, index := c.tree } = some t := by
      simpa [Repo.headTarget, Repo.branchTip] using htip
    have hA2 : Repo.lookupCommit
        { g.repo with headName := g.ref, workdir := c.tree, index := c.tree } t = some c := by
      simpa [Repo.lookupCommit] using hlook
    have hA3 : (Repo.walk
        { g.repo with headName := g.ref, workdir := c.tree, index := c.tree } t).head? =
        some c := walk_head hA2
    have hcid : c.id = t := lookupCommit_id hlook
    cases hany : g.repo.branches.any (fun p => p.1 = "git_reverter_" ++ now) with
    | true =>
      have hcb : Repo.createBranch
          { g.repo with headName := g.ref, workdir := c.tree, index := c.tree }
          ("git_reverter_" ++ now) c = none := by
        simp [Repo.createBranch, hany]
      rw [GitReverter.setup_tmp_branch] at hs
      simp only [hco, hA1, hA3, hcb] at hs
      exact absurd hs (by simp)
    | false =>
      have hcb : Repo.createBranch
          { g.repo with headName := g.ref, workdir := c.tree, index := c.tree }
          ("git_reverter_" ++ now) c = some
          { g.repo with
            headName := g.ref, workdir := c.tree, index := c.tree,
            branches := g.repo.branches ++ [("git_reverter_" ++ now, c.id)] } := by
        simp [Repo.createBranch, hany]
      have hBtip : Repo.branchTip
          { g.repo with
            headName := g.ref, workdir := c.tree, index := c.tree,
            branches := g.repo.branches ++ [("git_reverter_" ++ now, c.id)] }
          ("git_reverter_" ++ now) = some c.id := by
        rw [Repo.branchTip]
        exact branchTip_append_not_taken hany rfl
      have hBlook : Repo.lookupCommit
          { g.repo with
            headName := g.ref, workdir := c.tree, index := c.tree,
            branches := g.repo.branches ++ [("git_reverter_" ++ now, c.id)] }
          c.id = some c := by
        rw [hcid]
        simpa [Repo.lookupCommit] using hlook
      have hB1 : Repo.checkout
          { g.repo with
            headName := g.ref, workdir := c.tree, index := c.tree,
            branches := g.repo.branches ++ [("git_reverter_" ++ now, c.id)] }
          ("git_reverter_" ++ now) = some
          { g.repo with
            headName := "git_reverter_" ++ now, workdir := c.tree, index := c.tree,
            branches := g.repo.branches ++ [("git_reverter_" ++ now, c.id)] } := by
        have hB0 := checkout_eq (by simpa using hconf : Repo.indexConflicts
          { g.repo with
            headName := g.ref, workdir := c.tree, index := c.tree,
            branches := g.repo.branches ++ [("git_reverter_" ++ now, c.id)] } = false)
          hBtip hBlook
        simpa using hB0
      have hC1 : Repo.headTarget
          { g.repo with
            headName := "git_reverter_" ++ now, workdir := c.tree, index := c.tree,
            branches := g.repo.branches ++ [("git_reverter_" ++ now, c.id)] } =
          some c.id := by
        rw [Repo.headTarget]
        simpa [Repo.branchTip] using hBtip
      have hC2 : Repo.lookupCommit
          { g.repo with
            headName := "git_reverter_" ++ now, workdir := c.tree, index := c.tree,
            branches := g.repo.branches ++ [("git_reverter_" ++ now, c.id)] }
          c.id = some c := by
        simpa [Repo.lookupCommit] using hBlook
      have hC3 : (Repo.walk
          { g.repo with
            headName := "git_reverter_" ++ now, workdir := c.tree, index := c.tree,
            branches := g.repo.branches ++ [("git_reverter_" ++ now, c.id)] }
          c.id).head? = some c := walk_head hC2
      rw [GitReverter.setup_tmp_branch] at hs
      simp only [hco, hA1, hA3, hcb, hB1, hC1, hC3] at hs
      refine ⟨t, c, hconf, htip, hlook, rfl, ?_⟩
      injection hs with hs
      exact hs.symm


theorem lookupCommit_congr {r1 r2 : Repo} (h : r1.commits = r2.commits) (i : String) :
    r1.lookupCommit i = r2.lookupCommit i := by
  rw [Repo.lookupCommit, Repo.lookupCommit, h]

theorem walkFuel_congr {r1 r2 : Repo} (h : r1.commits = r2.commits) :
    ∀ (n : Nat) (i : String), r1.walkFuel n i = r2.walkFuel n i := by
  intro n
  induction n with
  | zero => intro i; rfl
  | succ n ih =>
    intro i
    rw [Repo.walkFuel, Repo.walkFuel, lookupCommit_congr h]
    cases r2.lookupCommit i with
    | none => rfl
    | some c =>
      cases hp : c.parentIds.head? with
      | none => simp [hp]
      | some p => simp [hp, ih]

theorem walk_congr {r1 r2 : Repo} (h : r1.commits = r2.commits) (i : String) :
    r1.walk i = r2.walk i := by
  rw [Repo.walk, Repo.walk, h, walkFuel_congr h]

theorem revert_congr {r1 r2 : Repo} (h : r1.commits = r2.commits) (c ours : Commit) :
    r1.revert_commit c ours = r2.revert_commit c ours := by
  rw [Repo.revert_commit, Repo.revert_commit, Repo.parentTree, Repo.parentTree]
  cases hp : c.parentIds.head? with
  | none => simp [hp]
  | some p => simp [hp, lookupCommit_congr h]

theorem branchTip_append_left {bs : List (String × String)} {name : String} {t : String}
    (h : (List.find? (fun p => p.1 = name) bs).map (·.2) = some t) (e : String × String) :
    (List.find? (fun p => p.1 = name) (bs ++ [e])).map (·.2) = some t := by
  cases hf : List.find? (fun p => p.1 = name) bs with
  | none => rw [hf] at h; exact absurd h (by simp)
  | some x =>
    rw [List.find?_append, hf]
    rw [hf] at h
    simpa using h

theorem filter_append_tmp {bs : List (String × String)} {name : String}
    (hb : (bs.any (fun p => p.1 = name)) = false) (e : String × String) (he : e.1 = name) :
    (bs ++ [e]).filter (fun p => ¬ p.1 = name) = bs := by
  rw [List.filter_append]
  have h1 : bs.filter (fun p => ¬ p.1 = name) = bs := by
    rw [List.filter_eq_self]
    intro x hx
    have hxn : ¬ x.1 = name := by
      intro hxe
      have hcontra : bs.any (fun p => p.1 = name) = true := by
        rw [List.any_eq_true]
        exact ⟨x, hx, by simpa using hxe⟩
      rw [hb] at hcontra
      exact absurd hcontra (by simp)
    simpa using hxn
  have h2 : List.filter (fun p => ¬ p.1 = name) [e] = [] := by
    simp [List.filter, he]
  rw [h1, h2, List.append_nil]

/-- A name that resolves as a branch differs from a name no branch carries:
in particular the target ref never equals a freshly created workspace name. -/
theorem ref_ne_tmp {bs : List (String × String)} {rf tmp t : String}
    (htip : (List.find? (fun p => p.1 = rf) bs).map (·.2) = some t)
    (hany : (bs.any (fun p => p.1 = tmp)) = false) :
    ¬ rf = tmp := by
  cases hf : List.find? (fun p => p.1 = rf) bs with
  | none => rw [hf] at htip; exact absurd htip (by simp)
  | some e =>
    have he : e ∈ bs := List.mem_of_find?_eq_some hf
    have he1 : e.1 = rf := by simpa using List.find?_some hf
    rw [List.any_eq_false] at hany
    intro hre
    exact hany e he (by simp [he1, hre])

/-- Closed form of a successful `test_all_single_revert`: the walked set is
the full history from the ref tip `t`, every flag is the conflict flag of the
revert of that commit against the fixed head snapshot `c` (the ref tip
commit), the result mapping is folded into the object's dictionary, no
commit is created, and the final repository is the original one checked out
back at the ref. -/
theorem test_all_spec {g : GitReverter} {now : String} {res : List (Commit × Bool)}
    {g' : GitReverter}
    (hs : g.test_all_single_revert now = .ok (res, g')) :
    ∃ t c, g.repo.indexConflicts = false ∧
      g.repo.branchTip g.ref = some t ∧
      g.repo.lookupCommit t = some c ∧
      (g.repo.branches.any (fun p => p.1 = "git_reverter_" ++ now)) = false ∧
      res = (g.repo.walk t).foldl
        (fun m cm => odInsert m cm (g.repo.revert_commit cm c).conflicts)
        g.target_commits ∧
      g' = { g with
        repo := { g.repo with headName := g.ref, workdir := c.tree, index := c.tree },
        tmp_branch := some ("git_reverter_" ++ now),
        head := some c,
        target_commits := res } := by
  cases hsetup : g.setup_tmp_branch now with
  | error e =>
    rw [GitReverter.test_all_single_revert, hsetup] at hs
    exact absurd hs (by simp)
  | ok g1 =>
    obtain ⟨t, c, hconf, htip, hlook, hany, hg1⟩ := setup_spec hsetup
    subst hg1
    have hcid : c.id = t := lookupCommit_id hlook
    -- reads made by the loop and the teardown, over the workspace state
    have hT1 : Repo.headTarget
        { g.repo with
          headName := "git_reverter_" ++ now, workdir := c.tree, index := c.tree,
          branches := g.repo.branches ++ [("git_reverter_" ++ now, c.id)] } =
        some c.id := by
      rw [Repo.headTarget]
      show (List.find? (fun p => p.1 = "git_reverter_" ++ now)
        (g.repo.branches ++ [("git_reverter_" ++ now, c.id)])).map (·.2) = some c.id
      exact branchTip_append_not_taken hany rfl
    have hcommits : Repo.commits
        { g.repo with
          headName := "git_reverter_" ++ now, workdir := c.tree, index := c.tree,
          branches := g.repo.branches ++ [("git_reverter_" ++ now, c.id)] } =
        g.repo.commits := rfl
    have hwalk : Repo.walk
        { g.repo with
          headName := "git_reverter_" ++ now, workdir := c.tree, index := c.tree,
          branches := g.repo.branches ++ [("git_reverter_" ++ now, c.id)] } c.id =
        g.repo.walk t := by
      rw [walk_congr hcommits, hcid]
    have hrev : ∀ cm : Commit, Repo.revert_commit
        { g.repo with
          headName := "git_reverter_" ++ now, workdir := c.tree, index := c.tree,
          branches := g.repo.branches ++ [("git_reverter_" ++ now, c.id)] } cm c =
        g.repo.revert_commit cm c := fun cm => revert_congr hcommits cm c
    have hTtip : Repo.branchTip
        { g.repo with
          headName := "git_reverter_" ++ now, workdir := c.tree, index := c.tree,
          branches := g.repo.branches ++ [("git_reverter_" ++ now, c.id)] } g.ref =
        some t := by
      rw [Repo.branchTip]
      exact branchTip_append_left (by simpa [Repo.branchTip] using htip) _
    have hTlook : Repo.lookupCommit
        { g.repo with
          headName := "git_reverter_" ++ now, workdir := c.tree, index := c.tree,
          branches := g.repo.branches ++ [("git_reverter_" ++ now, c.id)] } t =
        some c := by
      simpa [Repo.lookupCommit] using hlook
    have hT2 : Repo.checkout
        { g.repo with
          headName := "git_reverter_" ++ now, workdir := c.tree, index := c.tree,
          branches := g.repo.branches ++ [("git_reverter_" ++ now, c.id)] } g.ref =
        some { g.repo with
          headName := g.ref, workdir := c.tree, index := c.tree,
          branches := g.repo.branches ++ [("git_reverter_" ++ now, c.id)] } := by
      have hT0 := checkout_eq (show Repo.indexConflicts
        { g.repo with
          headName := "git_reverter_" ++ now, workdir := c.tree, index := c.tree,
          branches := g.repo.branches ++ [("git_reverter_" ++ now, c.id)] } = false
        from by simpa using hconf) hTtip hTlook
      simpa using hT0
    have hrefne : ¬ g.ref = "git_reverter_" ++ now :=
      ref_ne_tmp (by simpa [Repo.branchTip] using htip) hany
    have hdel : Repo.deleteBranch
        { g.repo with
          headName := g.ref, workdir := c.tree, index := c.tree,
          branches := g.repo.branches ++ [("git_reverter_" ++ now, c.id)] }
        ("git_reverter_" ++ now) =
        some { g.repo with headName := g.ref, workdir := c.tree, index := c.tree } := by
      rw [Repo.deleteBranch]
      rw [if_neg (by simpa using hrefne)]
      have hfil := filter_append_tmp hany ("git_reverter_" ++ now, c.id) rfl
      simp only [hfil]
    rw [GitReverter.test_all_single_revert] at hs
    simp only [hsetup, hT1, hT2, hdel, hwalk, hrev] at hs
    injection hs with hs
    injection hs with hres hg
    exact ⟨t, c, hconf, htip, hlook, hany, hres.symm, by rw [← hg, ← hres]⟩

/-- The cascade loop never reads the result of the revert attempt: the loop
is the same function for any attempt function. -/
theorem revertStepLoop_f_congr (f1 f2 : Repo → Commit → Commit → Index) :
    ∀ (cs : List Commit) (r : Repo),
      revertStepLoop f1 cs r = revertStepLoop f2 cs r := by
  intro cs
  induction cs with
  | nil => intro r; rfl
  | cons c cs ih =>
    intro r
    rw [revertStepLoop, revertStepLoop]
    cases ht : r.headTarget with
    | none => simp only [ht]
    | some t =>
      simp only [ht]
      cases hh : (r.walk t).head? with
      | none => simp only [hh]
      | some nh =>
        simp only [hh]
        cases hc : r.indexConflicts with
        | true => simp only [hc, if_true]
        | false => simp only [hc, Bool.false_eq_true, if_false, ih]

/-- The conflict test of the cascade loop reads the repository's own index,
whose conflict flag the loop never sets: starting from a clean index the
loop can never abort with a conflict error. -/
theorem revertStepLoop_no_conflict (f : Repo → Commit → Commit → Index) :
    ∀ (cs : List Commit) (r : Repo), r.indexConflicts = false →
      isConflictErr (revertStepLoop f cs r) = false := by
  intro cs
  induction cs with
  | nil => intro r _; rfl
  | cons c cs ih =>
    intro r h
    rw [revertStepLoop]
    cases ht : r.headTarget with
    | none => simp [ht, isConflictErr]
    | some t =>
      simp only [ht]
      cases hh : (r.walk t).head? with
      | none => simp [hh, isConflictErr]
      | some nh =>
        simp only [hh, h, Bool.false_eq_true, if_false]
        exact ih _ (by simp [Repo.create_commit, h])

/-- On success the cascade loop appends exactly one commit per processed
commit. -/
theorem revertStepLoop_ok_commits (f : Repo → Commit → Commit → Index) :
    ∀ (cs : List Commit) (r r' : Repo), revertStepLoop f cs r = .ok r' →
      r'.commits.length = r.commits.length + cs.length := by
  intro cs
  induction cs with
  | nil =>
    intro r r' h
    injection h with h
    subst h
    simp
  | cons c cs ih =>
    intro r r' h
    rw [revertStepLoop] at h
    cases ht : r.headTarget with
    | none => rw [ht] at h; exact absurd h (by simp)
    | some t =>
      simp only [ht] at h
      cases hh : (r.walk t).head? with
      | none => rw [hh] at h; exact absurd h (by simp)
      | some nh =>
        simp only [hh] at h
        cases hc : r.indexConflicts with
        | true => rw [hc] at h; exact absurd h (by simp)
        | false =>
          simp only [hc, Bool.false_eq_true, if_false] at h
          have hlen := ih _ _ h
          rw [hlen]
          simp only [Repo.create_commit, List.length_append, List.length_cons,
            List.length_nil]
          omega

/-- Every error of `setup_tmp_branch` comes from the git engine itself. -/
theorem setup_err {g : GitReverter} {now : String} {e : GRError}
    (h : g.setup_tmp_branch now = .error e) : e = .gitError := by
  simp only [GitReverter.setup_tmp_branch] at h
  repeat' split at h
  all_goals first
    | (injection h with h; exact h.symm)
    | (exact absurd h (by simp))

/-- The cascade as a whole never reports a conflict, whatever the attempt
function returns and whatever the repository contains. -/
theorem revertAll_no_conflict_abort (f : Repo → Commit → Commit → Index)
    (g : GitReverter) (now : String) :
    isConflictErr (g.revertAllWith f now) = false := by
  rw [GitReverter.revertAllWith]
  cases hsetup : g.setup_tmp_branch now with
  | error e =>
    have he := setup_err hsetup
    subst he
    simp only [hsetup]
    rfl
  | ok g1 =>
    obtain ⟨t, c, hconf, htip, hlook, hany, hg1⟩ := setup_spec hsetup
    simp only [hsetup]
    cases ht : g1.repo.headTarget with
    | none => simp [ht, isConflictErr]
    | some t2 =>
      simp only [ht]
      cases hloop : revertStepLoop f (g1.repo.walk t2) g1.repo with
      | error e2 =>
        have hnc := revertStepLoop_no_conflict f (g1.repo.walk t2) g1.repo
          (by rw [hg1]; simpa using hconf)
        rw [hloop] at hnc
        simp only [hloop]
        cases e2 with
        | conflict i => simp [isConflictErr] at hnc
        | notFound a b => rfl
        | gitError => rfl
      | ok r => simp [hloop, isConflictErr]

/-- Closed form of a successful cascade: the ref resolves to tip `t` held by
commit `c`, the loop ran over the full walk from `t` on the workspace state,
and one commit was appended per walked commit. -/
theorem revertAll_ok_spec {f : Repo → Commit → Commit → Index} {g : GitReverter}
    {now : String} {g' : GitReverter}
    (hs : g.revertAllWith f now = .ok g') :
    ∃ t c r,
      g.repo.branchTip g.ref = some t ∧
      g.repo.lookupCommit t = some c ∧
      revertStepLoop f (g.repo.walk t)
        { g.repo with
          headName := "git_reverter_" ++ now, workdir := c.tree, index := c.tree,
          branches := g.repo.branches ++ [("git_reverter_" ++ now, c.id)] } = .ok r ∧
      g' = { g with
        repo := r,
        tmp_branch := some ("git_reverter_" ++ now),
        head := some c } ∧
      r.commits.length = g.repo.commits.length + (g.repo.walk t).length := by
  cases hsetup : g.setup_tmp_branch now with
  | error e =>
    rw [GitReverter.revertAllWith, hsetup] at hs
    exact absurd hs (by simp)
  | ok g1 =>
    obtain ⟨t, c, hconf, htip, hlook, hany, hg1⟩ := setup_spec hsetup
    subst hg1
    have hcid : c.id = t := lookupCommit_id hlook
    have hT1 : Repo.headTarget
        { g.repo with
          headName := "git_reverter_" ++ now, workdir := c.tree, index := c.tree,
          branches := g.repo.branches ++ [("git_reverter_" ++ now, c.id)] } =
        some c.id := by
      rw [Repo.headTarget]
      show (List.find? (fun p => p.1 = "git_reverter_" ++ now)
        (g.repo.branches ++ [("git_reverter_" ++ now, c.id)])).map (·.2) = some c.id
      exact branchTip_append_not_taken hany rfl
    have hcommits : Repo.commits
        { g.repo with
          headName := "git_reverter_" ++ now, workdir := c.tree, index := c.tree,
          branches := g.repo.branches ++ [("git_reverter_" ++ now, c.id)] } =
        g.repo.commits := rfl
    have hwalk : Repo.walk
        { g.repo with
          headName := "git_reverter_" ++ now, workdir := c.tree, index := c.tree,
          branches := g.repo.branches ++ [("git_reverter_" ++ now, c.id)] } c.id =
        g.repo.walk t := by
      rw [walk_congr hcommits, hcid]
    rw [GitReverter.revertAllWith] at hs
    simp only [hsetup, hT1, hwalk] at hs
    cases hloop : revertStepLoop f (g.repo.walk t)
        { g.repo with
          headName := "git_reverter_" ++ now, workdir := c.tree, index := c.tree,
          branches := g.repo.branches ++ [("git_reverter_" ++ now, c.id)] } with
    | error e2 => rw [hloop] at hs; exact absurd hs (by simp)
    | ok r =>
      rw [hloop] at hs
      injection hs with hs
      have hlen := revertStepLoop_ok_commits f (g.repo.walk t) _ r hloop
      refine ⟨t, c, r, htip, hlook, hloop, hs.symm, ?_⟩
      rw [hlen]

theorem map_self {α : Type} (l : List α) (g : α → α) (h : ∀ x ∈ l, g x = x) :
    l.map g = l := by
  induction l with
  | nil => rfl
  | cons a l ih =>
    rw [List.map_cons, h a (by simp), ih (fun x hx => h x (by simp [hx]))]

/-- Folding ordered-dictionary inserts of fresh, pairwise distinct keys
appends the corresponding entries in order. -/
theorem foldl_odInsert_append (f : Commit → Bool) :
    ∀ (cs : List Commit) (d : List (Commit × Bool)),
      (∀ c ∈ cs, ∀ p ∈ d, ¬ p.1.id = c.id) →
      ((cs.map (·.id)).Nodup) →
      cs.foldl (fun m c => odInsert m c (f c)) d = d ++ cs.map (fun c => (c, f c)) := by
  intro cs
  induction cs with
  | nil => intro d _ _; simp
  | cons c cs ih =>
    intro d hdisj hnd
    have hnd0 : (c.id :: cs.map (·.id)).Nodup := by simpa using hnd
    rw [List.foldl_cons]
    have hany : d.any (fun p => p.1.id = c.id) = false := by
      rw [List.any_eq_false]
      intro p hp
      simpa using hdisj c (by simp) p hp
    have hins : odInsert d c (f c) = d ++ [(c, f c)] := by
      rw [odInsert, hany]
      simp
    rw [hins]
    have hdisj' : ∀ c' ∈ cs, ∀ p ∈ d ++ [(c, f c)], ¬ p.1.id = c'.id := by
      intro c' hc' p hp
      rcases List.mem_append.1 hp with hpd | hpc
      · exact hdisj c' (by simp [hc']) p hpd
      · have hpe : p = (c, f c) := by simpa using hpc
        subst hpe
        intro he
        have hmem : c.id ∈ cs.map (·.id) := by
          have hm : c'.id ∈ cs.map (·.id) := List.mem_map_of_mem _ hc'
          simpa [← he] using hm
        exact (List.nodup_cons.1 hnd0).1 hmem
    have hnd' : (cs.map (·.id)).Nodup := (List.nodup_cons.1 hnd0).2
    rw [ih _ hdisj' hnd', List.append_assoc]
    simp

/-- Re-folding ordered-dictionary inserts whose keys are already present
with the same values leaves the dictionary unchanged. -/
theorem foldl_odInsert_restate (f : Commit → Bool) :
    ∀ (cs : List Commit) (d : List (Commit × Bool)),
      (∀ c ∈ cs, (d.any (fun p => p.1.id = c.id)) = true ∧
        ∀ p ∈ d, p.1.id = c.id → p.2 = f c) →
      cs.foldl (fun m c => odInsert m c (f c)) d = d := by
  intro cs
  induction cs with
  | nil => intro d _; rfl
  | cons c cs ih =>
    intro d hcond
    rw [List.foldl_cons]
    have hid : odInsert d c (f c) = d := by
      rw [odInsert, (hcond c (by simp)).1, if_pos rfl]
      apply map_self
      intro p hp
      by_cases hpc : p.1.id = c.id
      · have hv := (hcond c (by simp)).2 p hp hpc
        simp [hpc, ← hv]
      · simp [hpc]
    rw [hid]
    exact ih d (fun c' hc' => hcond c' (by simp [hc']))

/-- C1: on the conflict-free one-commit history the cascade does create one
commit per walked commit, with message `Revert ` plus the original message,
the configured author and committer, and the pre-step head as single parent;
but the tree it commits is the unchanged working tree, because the index
returned by the revert attempt is discarded.  The final tree still holds the
file, instead of the empty tree of the (nonexistent) commit preceding the
reverted range, so the claimed full undo does not happen. -/
theorem C1_cascade_tree_bug :
    (exRepo1.revert_commit exC0 exC0).conflicts = false ∧
    (exG1.revert_all_reverse "T").toOption.map
      (fun x => x.repo.commits.map
        (fun cm => (cm.message, cm.author, cm.committer, cm.parentIds, cm.tree))) =
      some [("m0", sigU, sigU, ([] : List String), [("f", "x")]),
            ("Revert m0", sigU, sigU, ["a0"], [("f", "x")])] ∧
    ((exG1.revert_all_reverse "T").toOption.bind
      (fun x => x.repo.headTarget.bind
        (fun t => (x.repo.lookupCommit t).map (·.tree)))) = some [("f", "x")] ∧
    ¬ ([("f", "x")] : Tree) = ([] : Tree) := by
  exact ⟨by decide, by rfl, by rfl, by decide⟩

/-- C2: the cascade can never abort with a conflict error, because the
conflict test reads the repository's own index rather than the revert
attempt's result.  Concretely, on the two-commit history the second step's
revert attempt (of the root commit, against the head left by the first step)
does conflict, yet the run succeeds and creates revert commits for both
walked commits instead of stopping before the conflicting one. -/
theorem C2_conflict_abort_bug :
    (∀ (g : GitReverter) (now : String),
      isConflictErr (g.revert_all_reverse now) = false) ∧
    exG2.repo.walk "b2" = [exD2, exD1] ∧
    revertStepLoop Repo.revert_commit [exD2, exD1] wsRepo2ex =
      revertStepLoop Repo.revert_commit [exD1] exRepo2Mid ∧
    exRepo2Mid.headTarget = some "!" ∧
    exRepo2Mid.lookupCommit "!" = some exMid1 ∧
    (exRepo2Mid.revert_commit exD1 exMid1).conflicts = true ∧
    (exG2.revert_all_reverse "T").toOption.map
      (fun x => (x.repo.commits.map (·.message), x.tmp_branch)) =
      some (["m1", "m2", "Revert m2", "Revert m1"], some "git_reverter_T") := by
  refine ⟨fun g now => revertAll_no_conflict_abort Repo.revert_commit g now,
    by decide, by rfl, by decide, by decide, by decide, by decide⟩

/-- C4: the cascade is the same function whatever the revert attempt
returns, so neither the abort decision nor the committed trees depend on the
attempt's resulting index; even an attempt function that always reports
conflicts and a foreign tree changes nothing, and the committed trees are
the staged working tree. -/
theorem C4_attempt_discarded :
    (∀ (f : Repo → Commit → Commit → Index) (g : GitReverter) (now : String),
      g.revertAllWith f now = g.revert_all_reverse now) ∧
    (GitReverter.revertAllWith (fun _ _ _ => ⟨[("g", "z")], true⟩)
      exG1 "T").toOption.map (fun x => x.repo.commits.map (·.tree)) =
      some [[("f", "x")], [("f", "x")]] := by
  constructor
  · intro f g now
    rw [GitReverter.revert_all_reverse]
    rw [GitReverter.revertAllWith, GitReverter.revertAllWith]
    cases hsetup : g.setup_tmp_branch now with
    | error e => simp only [hsetup]
    | ok g1 =>
      simp only [hsetup]
      cases ht : g1.repo.headTarget with
      | none => rfl
      | some t => simp only [ht, revertStepLoop_f_congr f Repo.revert_commit]
  · rfl


/-- C3: a successful analysis returns the mapping over exactly the commits
walked from the workspace tip, in walk order, flagging each commit by
whether its isolated revert against the fixed head snapshot (the ref tip
commit `c0`, not the previous iteration's result) reports conflicts; the
object store is unchanged, so no commit is created. -/
theorem C3_analysis_flags (g : GitReverter) (now : String) (t : String) (c0 : Commit)
    (h0 : g.target_commits = [])
    (ht : g.repo.branchTip g.ref = some t)
    (hc : g.repo.lookupCommit t = some c0)
    (hnd : ((g.repo.walk t).map (·.id)).Nodup)
    (hok : (g.test_all_single_revert now).toOption.isSome = true) :
    (g.test_all_single_revert now).toOption.map (fun x => x.1) =
      some ((g.repo.walk t).map
        (fun cm => (cm, (g.repo.revert_commit cm c0).conflicts))) ∧
    (g.test_all_single_revert now).toOption.map (fun x => x.2.repo.commits) =
      some g.repo.commits := by
  cases hrun : g.test_all_single_revert now with
  | error e => rw [hrun] at hok; exact absurd hok (by simp [Except.toOption])
  | ok pr =>
    obtain ⟨res, g'⟩ := pr
    obtain ⟨t', c', hconf, ht', hc', hany, hres, hg'⟩ := test_all_spec hrun
    have hte : t' = t := Option.some.inj (ht'.symm.trans ht)
    rw [hte] at hres hc'
    have hce : c' = c0 := Option.some.inj (hc'.symm.trans hc)
    rw [hce] at hres hg'
    rw [h0] at hres
    have happ := foldl_odInsert_append
      (fun cm => (g.repo.revert_commit cm c0).conflicts) (g.repo.walk t) []
      (fun cm hcm p hp => absurd hp (by simp)) hnd
    rw [happ] at hres
    simp only [List.nil_append] at hres
    constructor
    · simp [Except.toOption, hres]
    · rw [hg']
      simp [Except.toOption]

theorem C3_analysis_flags_witness :
    (exG1.test_all_single_revert "T").toOption.map (fun x => x.1) =
      some ((exG1.repo.walk "a0").map
        (fun cm => (cm, (exG1.repo.revert_commit cm exC0).conflicts))) ∧
    (exG1.test_all_single_revert "T").toOption.map (fun x => x.2.repo.commits) =
      some exG1.repo.commits :=
  C3_analysis_flags exG1 "T" "a0" exC0 rfl rfl rfl (by decide) (by decide)

/-- C5: a successful analysis restores the local branches exactly (in
particular the target ref still points at the same tip), leaves the target
ref checked out, and the temporary workspace branch it created is gone: no
branch carrying this run's workspace name remains. -/
theorem C5_analysis_restores (g : GitReverter) (now : String)
    (hok : (g.test_all_single_revert now).toOption.isSome = true) :
    (g.test_all_single_revert now).toOption.map (fun x => x.2.repo.branches) =
      some g.repo.branches ∧
    (g.test_all_single_revert now).toOption.map (fun x => x.2.repo.headName) =
      some g.ref ∧
    (g.test_all_single_revert now).toOption.map
      (fun x => x.2.repo.branchTip g.ref) = some (g.repo.branchTip g.ref) ∧
    (g.test_all_single_revert now).toOption.map
      (fun x => x.2.repo.branches.any (fun p => p.1 = "git_reverter_" ++ now)) =
      some false := by
  cases hrun : g.test_all_single_revert now with
  | error e => rw [hrun] at hok; exact absurd hok (by simp [Except.toOption])
  | ok pr =>
    obtain ⟨res, g'⟩ := pr
    obtain ⟨t', c', hconf, ht', hc', hany, hres, hg'⟩ := test_all_spec hrun
    rw [hg']
    refine ⟨?_, ?_, ?_, ?_⟩
    · simp [Except.toOption]
    · simp [Except.toOption]
    · simp [Except.toOption, Repo.branchTip]
    · simp [Except.toOption]
      simpa using hany

theorem C5_analysis_restores_witness :
    (exG1.test_all_single_revert "T").toOption.map (fun x => x.2.repo.branches) =
      some exG1.repo.branches ∧
    (exG1.test_all_single_revert "T").toOption.map (fun x => x.2.repo.headName) =
      some exG1.ref ∧
    (exG1.test_all_single_revert "T").toOption.map
      (fun x => x.2.repo.branchTip exG1.ref) = some (exG1.repo.branchTip exG1.ref) ∧
    (exG1.test_all_single_revert "T").toOption.map
      (fun x => x.2.repo.branches.any (fun p => p.1 = "git_reverter_" ++ "T")) =
      some false :=
  C5_analysis_restores exG1 "T" (by decide)


/-- C7: the constructor checks the reference out and then succeeds exactly
when some commit walked from its tip has the given prefix of its full
identity (the first such match stops the search), recording the checked-out
repository; it reports the not-found error naming the prefix and the
reference exactly when no walked commit matches. -/
theorem C7_locator (r0 : Repo) (rf hsh : String) (r : Repo) (t : String)
    (hco : r0.checkout rf = some r) (ht : r.headTarget = some t) :
    r.headName = rf ∧
    (GitReverter.init r0 rf hsh = .error (.notFound hsh rf) ↔
      List.find? (fun c => strStartsWith c.id hsh) (r.walk t) = none) ∧
    ((∃ g, GitReverter.init r0 rf hsh = .ok g) ↔
      ∃ c ∈ r.walk t, strStartsWith c.id hsh) ∧
    (∀ g, GitReverter.init r0 rf hsh = .ok g →
      g.repo = r ∧ g.ref = rf ∧ g.commit_hash = hsh ∧
      g.head = none ∧ g.tmp_branch = none ∧ g.target_commits = []) := by
  obtain ⟨t0, c0, hconf, htip, hlook, hr⟩ := checkout_spec hco
  have hhead : r.headName = rf := by rw [hr]
  cases hfind : List.find? (fun c => strStartsWith c.id hsh) (r.walk t) with
  | none =>
    have hinit : GitReverter.init r0 rf hsh = .error (.notFound hsh rf) := by
      rw [GitReverter.init]
      simp only [hco, ht, hfind]
    refine ⟨hhead, by simp [hinit, hfind], ?_, ?_⟩
    · constructor
      · rintro ⟨g, hg⟩
        rw [hinit] at hg
        exact absurd hg (by simp)
      · intro hex
        have hsome : (List.find? (fun c => strStartsWith c.id hsh) (r.walk t)).isSome := by
          rw [List.find?_isSome]
          simpa using hex
        rw [hfind] at hsome
        exact absurd hsome (by simp)
    · intro g hg
      rw [hinit] at hg
      exact absurd hg (by simp)
  | some cf =>
    have hinit : GitReverter.init r0 rf hsh = .ok
        { repo := r, ref := rf, commit_hash := hsh, head := none,
          tmp_branch := none, target_commits := [] } := by
      rw [GitReverter.init]
      simp only [hco, ht, hfind]
    refine ⟨hhead, ?_, ?_, ?_⟩
    · constructor
      · intro hg
        rw [hinit] at hg
        exact absurd hg (by simp)
      · intro hnone
        exact absurd hnone (by simp)
    · constructor
      · intro _
        have hsome : (List.find? (fun c => strStartsWith c.id hsh) (r.walk t)).isSome := by
          rw [hfind]
          rfl
        rw [List.find?_isSome] at hsome
        simpa using hsome
      · intro _
        exact ⟨_, hinit⟩
    · intro g hg
      rw [hinit] at hg
      injection hg with hg
      rw [← hg]
      exact ⟨rfl, rfl, rfl, rfl, rfl, rfl⟩

theorem C7_locator_witness :
    exRepo1.headName = "main" ∧
    (GitReverter.init exRepo1 "main" "a" = .error (.notFound "a" "main") ↔
      List.find? (fun c => strStartsWith c.id "a") (exRepo1.walk "a0") = none) ∧
    ((∃ g, GitReverter.init exRepo1 "main" "a" = .ok g) ↔
      ∃ c ∈ exRepo1.walk "a0", strStartsWith c.id "a") ∧
    (∀ g, GitReverter.init exRepo1 "main" "a" = .ok g →
      g.repo = exRepo1 ∧ g.ref = "main" ∧ g.commit_hash = "a" ∧
      g.head = none ∧ g.tmp_branch = none ∧ g.target_commits = []) :=
  C7_locator exRepo1 "main" "a" exRepo1 "a0" rfl rfl

/-- C8 counterexample: the workspace branch the script creates is named
`git_reverter_<timestamp>`, not `revert-workspace-<timestamp>` as the claim
states; after a concrete successful setup no branch at all carries the
`revert-workspace-` prefix. -/
theorem C8_name_counterexample :
    (exG1.setup_tmp_branch "2024-01-01-000000").toOption.map
      (fun x => (x.tmp_branch, x.repo.headName, x.repo.branches)) =
      some (some "git_reverter_2024-01-01-000000",
        "git_reverter_2024-01-01-000000",
        [("main", "a0"), ("git_reverter_2024-01-01-000000", "a0")]) ∧
    (([("main", "a0"), ("git_reverter_2024-01-01-000000", "a0")] :
        List (String × String)).any
      (fun p => strStartsWith p.1 "revert-workspace-")) = false := by
  exact ⟨by rfl, by decide⟩

/-- C8 as amended: opening the workspace creates a new branch named
`git_reverter_<timestamp>` pointing at the base reference's current tip
commit `c`, checks that branch out, and records `c` as the workspace's fixed
head snapshot. -/
theorem C8_workspace_amended (g : GitReverter) (now : String) (t : String) (c : Commit)
    (ht : g.repo.branchTip g.ref = some t)
    (hc : g.repo.lookupCommit t = some c)
    (hok : (g.setup_tmp_branch now).toOption.isSome = true) :
    (g.setup_tmp_branch now).toOption.map
      (fun x => (x.tmp_branch, x.repo.headName, x.repo.branches, x.head)) =
      some (some ("git_reverter_" ++ now), "git_reverter_" ++ now,
        g.repo.branches ++ [("git_reverter_" ++ now, c.id)], some c) := by
  cases hrun : g.setup_tmp_branch now with
  | error e => rw [hrun] at hok; exact absurd hok (by simp [Except.toOption])
  | ok g1 =>
    obtain ⟨t', c', hconf, ht', hc', hany, hg1⟩ := setup_spec hrun
    have hte : t' = t := Option.some.inj (ht'.symm.trans ht)
    rw [hte] at hc'
    have hce : c' = c := Option.some.inj (hc'.symm.trans hc)
    rw [hce] at hg1
    rw [hg1]
    simp [Except.toOption]

theorem C8_workspace_amended_witness :
    (exG1.setup_tmp_branch "2024-01-01-000000").toOption.map
      (fun x => (x.tmp_branch, x.repo.headName, x.repo.branches, x.head)) =
      some (some ("git_reverter_" ++ "2024-01-01-000000"),
        "git_reverter_" ++ "2024-01-01-000000",
        exG1.repo.branches ++ [("git_reverter_" ++ "2024-01-01-000000", exC0.id)],
        some exC0) :=
  C8_workspace_amended exG1 "2024-01-01-000000" "a0" exC0 rfl rfl (by decide)


/-- C9: on an unmodified repository a second analysis run, performed on the
state the first successful run leaves behind, produces exactly the same
ordered conflict flags as the first run. -/
theorem C9_idempotent (g : GitReverter) (now1 now2 : String) (t : String)
    (h0 : g.target_commits = [])
    (ht : g.repo.branchTip g.ref = some t)
    (hnd : ((g.repo.walk t).map (·.id)).Nodup)
    (h2 : ((g.test_all_single_revert now1).toOption.bind
      (fun x => (x.2.test_all_single_revert now2).toOption)).isSome = true) :
    (g.test_all_single_revert now1).toOption.bind
      (fun x => (x.2.test_all_single_revert now2).toOption.map (fun y => y.1)) =
    (g.test_all_single_revert now1).toOption.map (fun x => x.1) := by
  cases hrun1 : g.test_all_single_revert now1 with
  | error e => rfl
  | ok pr =>
    obtain ⟨res1, g1⟩ := pr
    obtain ⟨t', c', hconf, ht', hc', hany, hres1, hg1⟩ := test_all_spec hrun1
    have hte : t' = t := Option.some.inj (ht'.symm.trans ht)
    rw [hte] at hc' hres1
    cases hrun2 : g1.test_all_single_revert now2 with
    | error e =>
      rw [hrun1] at h2
      simp [Except.toOption, hrun2] at h2
    | ok pr2 =>
      obtain ⟨res2, g2⟩ := pr2
      obtain ⟨t2, c2, hconf2, ht2, hc2, hany2, hres2, hg2⟩ := test_all_spec hrun2
      have hbt1 : Repo.branchTip g1.repo g1.ref = some t := by
        rw [hg1]
        simpa [Repo.branchTip] using ht
      have hte2 : t2 = t := Option.some.inj (ht2.symm.trans hbt1)
      rw [hte2] at hc2 hres2
      have hlk1 : Repo.lookupCommit g1.repo t = some c' := by
        rw [hg1]
        simpa [Repo.lookupCommit] using hc'
      have hce2 : c2 = c' := Option.some.inj (hc2.symm.trans hlk1)
      rw [hce2] at hres2
      have hcm : g1.repo.commits = g.repo.commits := by rw [hg1]
      have hrev : ∀ cm : Commit,
          g1.repo.revert_commit cm c' = g.repo.revert_commit cm c' :=
        fun cm => revert_congr hcm cm c'
      have htc : g1.target_commits = res1 := by rw [hg1]
      rw [walk_congr hcm, htc] at hres2
      simp only [hrev] at hres2
      have hres1m : res1 = (g.repo.walk t).map
          (fun cm => (cm, (g.repo.revert_commit cm c').conflicts)) := by
        rw [h0] at hres1
        rw [foldl_odInsert_append _ _ _
          (fun cm hcm2 p hp => absurd hp (by simp)) hnd] at hres1
        simpa using hres1
      have hcond : ∀ cm ∈ g.repo.walk t,
          (res1.any (fun p => p.1.id = cm.id)) = true ∧
          ∀ p ∈ res1, p.1.id = cm.id →
            p.2 = (g.repo.revert_commit cm c').conflicts := by
        intro cm hcm2
        constructor
        · rw [hres1m, List.any_eq_true]
          exact ⟨(cm, (g.repo.revert_commit cm c').conflicts),
            List.mem_map_of_mem _ hcm2, by simp⟩
        · intro p hp hpid
          rw [hres1m] at hp
          obtain ⟨cm2, hcm3, hpe⟩ := List.mem_map.1 hp
          rw [← hpe] at hpid
          rw [← hpe]
          have hcc : cm2 = cm :=
            List.inj_on_of_nodup_map hnd hcm3 hcm2 (by simpa using hpid)
          rw [hcc]
      have hrestate := foldl_odInsert_restate
        (fun cm => (g.repo.revert_commit cm c').conflicts)
        (g.repo.walk t) res1 hcond
      have hfinal : res2 = res1 := by rw [hres2, hrestate]
      simp [Except.toOption, hrun2, hfinal]

theorem C9_idempotent_witness :
    (exG1.test_all_single_revert "T").toOption.bind
      (fun x => (x.2.test_all_single_revert "U").toOption.map (fun y => y.1)) =
    (exG1.test_all_single_revert "T").toOption.map (fun x => x.1) :=
  C9_idempotent exG1 "T" "U" "a0" rfl rfl (by decide) (by decide)


theorem filter_congr_mem {α : Type} (l : List α) (p q : α → Bool)
    (h : ∀ a ∈ l, p a = q a) : l.filter p = l.filter q := by
  induction l with
  | nil => rfl
  | cons a l ih =>
    rw [List.filter_cons, List.filter_cons, h a (by simp),
      ih (fun x hx => h x (by simp [hx]))]

/-- Closed form of the cleanup iteration when the checked-out branch does
not carry the reserved prefix: every delete succeeds, no error escapes, and
the entries removed are exactly those whose name is both in the snapshot
and carries the prefix. -/
theorem cleanupLoop_spec : ∀ (bs : List String) (r : Repo),
    strStartsWith r.headName "git_reverter_" = false →
    cleanupLoop bs r = ({ r with
      branches := r.branches.filter
        (fun p => !(bs.contains p.1 && strStartsWith p.1 "git_reverter_")) }, none) := by
  intro bs
  induction bs with
  | nil =>
    intro r hh
    simp [cleanupLoop]
  | cons b bs ih =>
    intro r hh
    rw [cleanupLoop]
    by_cases hb : strStartsWith b "git_reverter_"
    · rw [if_pos hb]
      have hne : ¬ r.headName = b := by
        intro he
        rw [he, hb] at hh
        exact absurd hh (by simp)
      have hdel : r.deleteBranch b =
          some { r with branches := r.branches.filter (fun p => ¬ p.1 = b) } := by
        rw [Repo.deleteBranch, if_neg hne]
      simp only [hdel]
      rw [ih _ (by simpa using hh)]
      have hfun : ∀ x : String × String,
          (!(bs.contains x.1 && strStartsWith x.1 "git_reverter_") && decide (¬ x.1 = b)) =
          !((b :: bs).contains x.1 && strStartsWith x.1 "git_reverter_") := by
        intro x
        by_cases hx : x.1 = b
        · simp [hx, hb]
        · simp [hx]
      have hfil : (r.branches.filter (fun p => decide (¬ p.1 = b))).filter
          (fun p => !(bs.contains p.1 && strStartsWith p.1 "git_reverter_")) =
          r.branches.filter
            (fun p => !((b :: bs).contains p.1 && strStartsWith p.1 "git_reverter_")) := by
        rw [List.filter_filter]
        exact filter_congr_mem _ _ _ (fun a _ => hfun a)
      rw [← hfil]
    · rw [if_neg hb, ih _ hh]
      have hfun : ∀ x : String × String,
          (!(bs.contains x.1 && strStartsWith x.1 "git_reverter_")) =
          !((b :: bs).contains x.1 && strStartsWith x.1 "git_reverter_") := by
        intro x
        by_cases hx : x.1 = b
        · have hxs : strStartsWith x.1 "git_reverter_" = false := by
            rw [hx]
            simpa using hb
          simp [hxs]
        · simp [hx]
      have hfil : r.branches.filter
          (fun p => !(bs.contains p.1 && strStartsWith p.1 "git_reverter_")) =
          r.branches.filter
            (fun p => !((b :: bs).contains p.1 && strStartsWith p.1 "git_reverter_")) :=
        filter_congr_mem _ _ _ (fun a _ => hfun a)
      rw [← hfil]

/-- C10 counterexample: when the operator runs `--cleanup --ref
git_reverter_X` against a repository with a stale workspace branch, the
constructor checks `git_reverter_X` out, so cleanup hits the engine's
refusal to delete the checked-out branch: the run raises mid-loop and the
branch carrying the reserved prefix survives, so cleanup does not delete
every matching branch and is not error-free. -/
theorem C10_checkedout_counterexample :
    (GitReverter.init exRepoC "git_reverter_X" "a").toOption.map
      (fun g => ((g.cleanup_branches).2, (g.cleanup_branches).1.repo.branches,
        g.repo.headName)) =
      some (some GRError.gitError,
        [("main", "a0"), ("git_reverter_X", "a0")], "git_reverter_X") ∧
    strStartsWith "git_reverter_X" "git_reverter_" = true := by
  exact ⟨by rfl, by rfl⟩

/-- C10 as amended: provided the checked-out branch does not itself carry
the reserved prefix, cleanup deletes exactly the local branches whose name
starts with `git_reverter_` and leaves every other branch (and all other
state) unchanged, raises no error, is the identity when no branch matches,
and a second run deletes nothing further. -/
theorem C10_cleanup_amended (g : GitReverter)
    (hhead : strStartsWith g.repo.headName "git_reverter_" = false) :
    g.cleanup_branches = ({ g with repo := { g.repo with
      branches := g.repo.branches.filter
        (fun p => !(strStartsWith p.1 "git_reverter_")) } }, none) ∧
    (g.cleanup_branches).1.cleanup_branches = g.cleanup_branches ∧
    ((g.repo.branches.all (fun p => !(strStartsWith p.1 "git_reverter_"))) = true →
      g.cleanup_branches = (g, none)) := by
  have hmain : ∀ (g' : GitReverter),
      strStartsWith g'.repo.headName "git_reverter_" = false →
      g'.cleanup_branches = ({ g' with repo := { g'.repo with
        branches := g'.repo.branches.filter
          (fun p => !(strStartsWith p.1 "git_reverter_")) } }, none) := by
    intro g' hh
    rw [GitReverter.cleanup_branches, cleanupLoop_spec _ _ hh]
    have hfil : g'.repo.branches.filter
        (fun p => !((g'.repo.branches.map (·.1)).contains p.1 &&
          strStartsWith p.1 "git_reverter_")) =
        g'.repo.branches.filter (fun p => !(strStartsWith p.1 "git_reverter_")) := by
      apply filter_congr_mem
      intro a ha
      have hc : (g'.repo.branches.map (·.1)).contains a.1 = true := by
        have hm : a.1 ∈ g'.repo.branches.map (·.1) := List.mem_map_of_mem _ ha
        exact List.elem_eq_true_of_mem hm
      rw [hc]
      simp
    rw [hfil]
  refine ⟨hmain g hhead, ?_, ?_⟩
  · rw [hmain g hhead]
    show GitReverter.cleanup_branches { g with repo := { g.repo with
      branches := g.repo.branches.filter
        (fun p => !(strStartsWith p.1 "git_reverter_")) } } =
      ({ g with repo := { g.repo with
        branches := g.repo.branches.filter
          (fun p => !(strStartsWith p.1 "git_reverter_")) } }, none)
    rw [hmain _ (by simpa using hhead)]
    have hidem : (g.repo.branches.filter
        (fun p => !(strStartsWith p.1 "git_reverter_"))).filter
          (fun p => !(strStartsWith p.1 "git_reverter_")) =
        g.repo.branches.filter (fun p => !(strStartsWith p.1 "git_reverter_")) := by
      rw [List.filter_filter]
      exact filter_congr_mem _ _ _ (fun a _ => by simp)
    simp only [hidem]
  · intro hall
    rw [hmain g hhead]
    have hself : g.repo.branches.filter
        (fun p => !(strStartsWith p.1 "git_reverter_")) = g.repo.branches :=
      List.filter_eq_self.2 (List.all_eq_true.1 hall)
    rw [hself]

theorem C10_cleanup_amended_witness :
    exG1.cleanup_branches = ({ exG1 with repo := { exG1.repo with
      branches := exG1.repo.branches.filter
        (fun p => !(strStartsWith p.1 "git_reverter_")) } }, none) ∧
    (exG1.cleanup_branches).1.cleanup_branches = exG1.cleanup_branches ∧
    ((exG1.repo.branches.all (fun p => !(strStartsWith p.1 "git_reverter_"))) = true →
      exG1.cleanup_branches = (exG1, none)) :=
  C10_cleanup_amended exG1 (by decide)

/-- C6: both the analysis and the cascade process the entire history
reachable from the workspace tip: the analysis result covers exactly the
full walk in order, the successful cascade appends one commit per walked
commit, and replacing the operator-supplied hash prefix by any other string
changes neither the analysis flags nor the commits the cascade creates. -/
theorem C6_walk_unbounded (g : GitReverter) (hh now now2 : String) (t : String)
    (h0 : g.target_commits = [])
    (ht : g.repo.branchTip g.ref = some t)
    (hnd : ((g.repo.walk t).map (·.id)).Nodup)
    (hokA : (g.test_all_single_revert now).toOption.isSome = true)
    (hokB : (({ g with commit_hash := hh } : GitReverter).test_all_single_revert
      now).toOption.isSome = true)
    (hokC : (g.revert_all_reverse now2).toOption.isSome = true)
    (hokD : (({ g with commit_hash := hh } : GitReverter).revert_all_reverse
      now2).toOption.isSome = true) :
    (g.test_all_single_revert now).toOption.map (fun x => x.1.map (·.1)) =
      some (g.repo.walk t) ∧
    (({ g with commit_hash := hh } : GitReverter).test_all_single_revert
      now).toOption.map (fun x => x.1) =
      (g.test_all_single_revert now).toOption.map (fun x => x.1) ∧
    (g.revert_all_reverse now2).toOption.map (fun x => x.repo.commits.length) =
      some (g.repo.commits.length + (g.repo.walk t).length) ∧
    (({ g with commit_hash := hh } : GitReverter).revert_all_reverse
      now2).toOption.map (fun x => x.repo.commits) =
      (g.revert_all_reverse now2).toOption.map (fun x => x.repo.commits) := by
  have hBrepo : ({ g with commit_hash := hh } : GitReverter).repo = g.repo := rfl
  have hBref : ({ g with commit_hash := hh } : GitReverter).ref = g.ref := rfl
  have hBtc : ({ g with commit_hash := hh } : GitReverter).target_commits = [] := h0
  -- analysis, original state
  cases hrunA : g.test_all_single_revert now with
  | error e => rw [hrunA] at hokA; exact absurd hokA (by simp [Except.toOption])
  | ok prA =>
    obtain ⟨resA, gA⟩ := prA
    obtain ⟨tA, cA, hconfA, htA, hcA, hanyA, hresA, hgA⟩ := test_all_spec hrunA
    have hteA : tA = t := Option.some.inj (htA.symm.trans ht)
    rw [hteA] at hcA hresA
    have hresAm : resA = (g.repo.walk t).map
        (fun cm => (cm, (g.repo.revert_commit cm cA).conflicts)) := by
      rw [h0] at hresA
      rw [foldl_odInsert_append _ _ _
        (fun cm hcm p hp => absurd hp (by simp)) hnd] at hresA
      simpa using hresA
    -- analysis, modified hash
    cases hrunB : ({ g with commit_hash := hh } : GitReverter).test_all_single_revert
        now with
    | error e => rw [hrunB] at hokB; exact absurd hokB (by simp [Except.toOption])
    | ok prB =>
      obtain ⟨resB, gB⟩ := prB
      obtain ⟨tB, cB, hconfB, htB, hcB, hanyB, hresB, hgB⟩ := test_all_spec hrunB
      rw [hBrepo, hBref] at htB
      rw [hBrepo] at hcB
      rw [hBrepo, hBref, hBtc] at hresB
      have hteB : tB = t := Option.some.inj (htB.symm.trans ht)
      rw [hteB] at hcB hresB
      have hceB : cB = cA := Option.some.inj (hcB.symm.trans hcA)
      rw [hceB] at hresB
      have hresBm : resB = resA := by
        rw [hresAm]
        rw [foldl_odInsert_append _ _ _
          (fun cm hcm p hp => absurd hp (by simp)) hnd] at hresB
        simpa using hresB
      -- cascade, original state
      cases hrunC : g.revert_all_reverse now2 with
      | error e => rw [hrunC] at hokC; exact absurd hokC (by simp [Except.toOption])
      | ok gC =>
        have hrunC' : g.revertAllWith Repo.revert_commit now2 = .ok gC := hrunC
        obtain ⟨tC, cC, rC, htC, hcC, hloopC, hgC, hlenC⟩ := revertAll_ok_spec hrunC'
        have hteC : tC = t := Option.some.inj (htC.symm.trans ht)
        rw [hteC] at hcC hloopC hlenC
        have hceC : cC = cA := Option.some.inj (hcC.symm.trans hcA)
        rw [hceC] at hloopC
        -- cascade, modified hash
        cases hrunD : ({ g with commit_hash := hh } : GitReverter).revert_all_reverse
            now2 with
        | error e => rw [hrunD] at hokD; exact absurd hokD (by simp [Except.toOption])
        | ok gD =>
          have hrunD' : ({ g with commit_hash := hh } : GitReverter).revertAllWith
              Repo.revert_commit now2 = .ok gD := hrunD
          obtain ⟨tD, cD, rD, htD, hcD, hloopD, hgD, hlenD⟩ := revertAll_ok_spec hrunD'
          rw [hBrepo, hBref] at htD
          rw [hBrepo] at hcD hloopD
          have hteD : tD = t := Option.some.inj (htD.symm.trans ht)
          rw [hteD] at hcD hloopD
          have hceD : cD = cA := Option.some.inj (hcD.symm.trans hcA)
          rw [hceD] at hloopD
          have hrCD : rD = rC := by
            exact Except.ok.inj (hloopD.symm.trans hloopC)
          refine ⟨?_, ?_, ?_, ?_⟩
          · simp [Except.toOption, hresAm, List.map_map]
            exact map_self _ _ (fun x hx => rfl)
          · simp [Except.toOption, hresBm]
          · rw [hgC]
            simp [Except.toOption, hlenC]
          · rw [hgC, hgD]
            simp [Except.toOption, hrCD]

theorem C6_walk_unbounded_witness :
    (exG1.test_all_single_revert "T").toOption.map (fun x => x.1.map (·.1)) =
      some (exG1.repo.walk "a0") ∧
    (({ exG1 with commit_hash := "zz" } : GitReverter).test_all_single_revert
      "T").toOption.map (fun x => x.1) =
      (exG1.test_all_single_revert "T").toOption.map (fun x => x.1) ∧
    (exG1.revert_all_reverse "U").toOption.map (fun x => x.repo.commits.length) =
      some (exG1.repo.commits.length + (exG1.repo.walk "a0").length) ∧
    (({ exG1 with commit_hash := "zz" } : GitReverter).revert_all_reverse
      "U").toOption.map (fun x => x.repo.commits) =
      (exG1.revert_all_reverse "U").toOption.map (fun x => x.repo.commits) :=
  C6_walk_unbounded exG1 "zz" "T" "U" "a0" rfl rfl (by decide)
    (by decide) (by decide) (by decide) (by decide)

end Gitrev
